import Mathlib

/-!
# Verification of the lucky-draw backend draw transaction

Shallow embedding of the two draw-endpoint variants of the repository:

* `src/index.ts` — the participant-aware variant: `weightedRandom` over the
  `probability` field with `random = Math.random() * 100`, an eligible-prize
  `SELECT` without `FOR UPDATE`, an insert into `lottery_records`, and a
  conditional inventory decrement.
* `src/unnamed/part_000` — the participant-free variant: `weightedRandom`
  over the `total_quantity` field with `random = Math.random() * totalWeight`,
  an eligible-prize `SELECT ... FOR UPDATE`, and a conditional decrement but
  no record insert.

JavaScript numbers are modelled as `ℚ` (quantities, which live in integer
database columns, as `ℤ` inside the row type).  `Math.random()` is modelled
by an explicit parameter `u : ℚ` with `0 ≤ u < 1` where it matters.  Each
HTTP handler becomes a function from the committed database state (plus the
request inputs) to the committed state after the call together with the
response; `beginTransaction`/`rollback` are modelled by returning the
original state unchanged on every abort path, and `commit` by returning the
mutated state.
-/

/-- A row of the `prizes` table (the `Prize` interface of `src/index.ts`;
the `part_000` variant's interface omits `probability`, but the rows come
from the same `SELECT *` shape and the extra field is simply unused there). -/
structure Prize where
  id : ℕ
  name : String
  total_quantity : ℤ
  remaining_quantity : ℤ
  probability : ℚ
  color : String
  deriving Repr, DecidableEq

/-- A row of the `participants` table. -/
structure Participant where
  id : ℕ
  name : String
  deriving Repr, DecidableEq

/-- A row of the `lottery_records` table; `id` and `lottery_time` are filled
in by the database and play no role in the claims, so only the two inserted
columns are kept. -/
structure LotteryRecord where
  participant_id : ℕ
  prize_id : ℕ
  deriving Repr, DecidableEq

/-- The persistent database state: the three tables, plus the
auto-increment counter that produces `result.insertId` for participants. -/
structure DB where
  prizes : List Prize
  participants : List Participant
  records : List LotteryRecord
  nextParticipantId : ℕ
  deriving Repr, DecidableEq

/-- `WHERE remaining_quantity > 0`: the eligible-prize row set, in store
return order. -/
def eligible (prizes : List Prize) : List Prize :=
  prizes.filter (fun p => 0 < p.remaining_quantity)

/-- The eligible-prize query issued by the `src/index.ts` draw endpoint
(lines 169–171). -/
def eligiblePrizesQuery_index : String :=
  "SELECT * FROM prizes WHERE remaining_quantity > 0"

/-- The eligible-prize query issued by the `src/unnamed/part_000` draw
endpoint (lines 77–79). -/
def eligiblePrizesQuery_part : String :=
  "SELECT * FROM prizes WHERE remaining_quantity > 0 FOR UPDATE"

/-- Whether a `SELECT` statement takes exclusive row locks, i.e. carries a
trailing `FOR UPDATE` clause. -/
def selectsForUpdate (q : String) : Bool :=
  "FOR UPDATE".data.isSuffixOf q.data

/-- The selection loop shared by both `weightedRandom` variants:
`for (const prize of prizes) { random -= weight(prize); if (random <= 0) return prize; }`.
`none` means the loop ran to completion without returning. -/
def walkLoop (weight : Prize → ℚ) : ℚ → List Prize → Option Prize
  | _, [] => none
  | random, p :: ps =>
    let random' := random - weight p
    if random' ≤ 0 then some p else walkLoop weight random' ps

/-- The random value drawn by `weightedRandom` in `src/index.ts` line 125:
`let random = Math.random() * 100;` with `u` standing for `Math.random()`. -/
def randomValue_index (u : ℚ) : ℚ := u * 100

/-- `prizes.reduce((sum, prize) => sum + prize.total_quantity, 0)`
(`src/unnamed/part_000` line 54). -/
def totalWeight (prizes : List Prize) : ℚ :=
  prizes.foldl (fun sum prize => sum + (prize.total_quantity : ℚ)) 0

/-- The random value drawn by `weightedRandom` in `src/unnamed/part_000`
line 56: `let random = Math.random() * totalWeight;`. -/
def randomValue_part (u : ℚ) (prizes : List Prize) : ℚ :=
  u * totalWeight prizes

/-- The sum of the `probability` weights of a prize list.  The
`src/index.ts` variant never computes this quantity; it is needed to state
what interval its random value would have to fall in. -/
def probabilitySum (prizes : List Prize) : ℚ :=
  (prizes.map Prize.probability).sum

/-- `weightedRandom` of `src/index.ts` (lines 124–135): walk the list
subtracting `prize.probability` from `random`; return the first prize where
the running value drops to `≤ 0`; if the loop completes, return
`prizes[prizes.length - 1]` (`none` models the `undefined` this yields on an
empty list). -/
def weightedRandom_index (u : ℚ) (prizes : List Prize) : Option Prize :=
  match walkLoop Prize.probability (randomValue_index u) prizes with
  | some p => some p
  | none => prizes.getLast?

/-- `weightedRandom` of `src/unnamed/part_000` (lines 52–66): same walk with
`prize.total_quantity` as the weight and `random = u * totalWeight`. -/
def weightedRandom_part (u : ℚ) (prizes : List Prize) : Option Prize :=
  match walkLoop (fun p => (p.total_quantity : ℚ)) (randomValue_part u prizes) prizes with
  | some p => some p
  | none => prizes.getLast?

/-- The conditional inventory write, identical in both variants:
`UPDATE prizes SET remaining_quantity = remaining_quantity - 1
 WHERE id = ? AND remaining_quantity > 0`
(`src/index.ts` line 187, `src/unnamed/part_000` lines 90–93).  Rows not
matching the `WHERE` clause — other ids, or an already-exhausted prize — are
untouched, making the write a no-op when the precondition no longer holds. -/
def decrementIfPositive (prizeId : ℕ) (prizes : List Prize) : List Prize :=
  prizes.map fun p =>
    if p.id = prizeId ∧ 0 < p.remaining_quantity then
      { p with remaining_quantity := p.remaining_quantity - 1 }
    else p

/-- Participant resolution of `src/index.ts` lines 151–166:
`SELECT * FROM participants WHERE name = ?`; if no row, `INSERT` a new
participant (its id is the auto-increment `insertId`), else take
`participants[0].id`. -/
def findOrCreateParticipant (name : String) (db : DB) : DB × ℕ :=
  match db.participants.filter (fun q => q.name = name) with
  | [] =>
    let pid := db.nextParticipantId
    ({ db with
        participants := db.participants ++ [⟨pid, name⟩],
        nextParticipantId := pid + 1 }, pid)
  | q :: _ => (db, q.id)

/-- The outcome of a draw call, as it appears on the wire:
`ok` is the HTTP 200 JSON body; `errMissingName` and `errNoPrizes` are the
two 400 responses; `errUndefined` marks the (unreachable) path where
`weightedRandom` would have returned `undefined`. -/
inductive DrawResult where
  | ok (participant : Option Participant) (prize : Prize)
  | errMissingName
  | errNoPrizes
  | errUndefined
  deriving Repr, DecidableEq

/-- Whether a draw call reported success (HTTP 200). -/
def DrawResult.isOk : DrawResult → Bool
  | .ok _ _ => true
  | _ => false

/-- `src/index.ts` lines 181–193, the tail of the draw handler from the
record insert onwards: insert `(participantId, selectedPrize.id)` into
`lottery_records`, run the conditional decrement, commit, and respond 200
with the participant and the `selectedPrize` row as fetched.  The `db`
argument is the table state the two writes execute against; the handler
never inspects the decrement's `affectedRows`, so this phase commits and
reports success unconditionally. -/
def commitPhase_index (db : DB) (participantId : ℕ) (name : String)
    (selectedPrize : Prize) : DB × DrawResult :=
  let db1 := { db with
    records := db.records ++ [LotteryRecord.mk participantId selectedPrize.id] }
  let db2 := { db1 with prizes := decrementIfPositive selectedPrize.id db1.prizes }
  (db2, .ok (some ⟨participantId, name⟩) selectedPrize)

/-- `src/unnamed/part_000` lines 89–98, the tail of the draw handler from
the conditional decrement onwards: no record insert, then commit and
respond 200 with the `selectedPrize` row as fetched; the decrement's
outcome is never inspected. -/
def commitPhase_part (db : DB) (selectedPrize : Prize) : DB × DrawResult :=
  ({ db with prizes := decrementIfPositive selectedPrize.id db.prizes },
   .ok none selectedPrize)

/-- The `POST /api/lottery/draw` handler of `src/index.ts` (lines 138–204):
reject a missing `participantName` with 400; find or create the
participant; fetch the eligible prizes (no `FOR UPDATE`); if none, roll
back and respond 400; otherwise select with `weightedRandom` and run
`commitPhase_index`.  Rollback paths return the original committed state. -/
def draw_index (db : DB) (u : ℚ) (participantName : Option String) :
    DB × DrawResult :=
  match participantName with
  | none => (db, .errMissingName)
  | some name =>
    let resolved := findOrCreateParticipant name db
    let prizes := eligible resolved.1.prizes
    if prizes.length = 0 then
      (db, .errNoPrizes)
    else
      match weightedRandom_index u prizes with
      | none => (db, .errUndefined)
      | some selectedPrize => commitPhase_index resolved.1 resolved.2 name selectedPrize

/-- The `POST /api/lottery/draw` handler of `src/unnamed/part_000`
(lines 69–109): fetch the eligible prizes under `FOR UPDATE`; if none, roll
back and respond 400; otherwise select with `weightedRandom` and run
`commitPhase_part`. -/
def draw_part (db : DB) (u : ℚ) : DB × DrawResult :=
  let prizes := eligible db.prizes
  if prizes.length = 0 then
    (db, .errNoPrizes)
  else
    match weightedRandom_part u prizes with
    | none => (db, .errUndefined)
    | some selectedPrize => commitPhase_part db selectedPrize

/-! ## Concrete fixtures

Test data used by the concrete theorems below.  `prizeA`/`prizeB` are the
spec's worked example `[{id:1,w:10,rem:5},{id:2,w:90,rem:5}]`, with the
weight stored both as `probability` (the `index.ts` reading) and as
`total_quantity` (the `part_000` reading). -/

def prizeA : Prize := ⟨1, "A", 10, 5, 10, "red"⟩

def prizeB : Prize := ⟨2, "B", 90, 5, 90, "blue"⟩

/-- Both fixture prizes in stock, no participants or records yet. -/
def dbAB : DB := ⟨[prizeA, prizeB], [], [], 1⟩

/-- A prize table where prize 2 is exhausted, so the eligible set is
`[prizeA]` with probability sum `10 ≠ 100`. -/
def dbPartialStock : DB := ⟨[prizeA, ⟨2, "B", 90, 0, 90, "blue"⟩], [], [], 1⟩

/-- A prize table whose only prize is exhausted: no eligible prize. -/
def dbExhausted : DB := ⟨[⟨1, "A", 10, 0, 10, "red"⟩], [], [], 1⟩

/-- The table state at write time in a lost-update race: the selected
prize's row has already been exhausted by another writer after it was read
with `remaining_quantity = 1`. -/
def dbRace : DB := ⟨[⟨1, "A", 10, 0, 10, "red"⟩], [⟨1, "x"⟩], [], 2⟩

/-- The selected-prize row as it was read before the race of `dbRace`. -/
def prizeStale : Prize := ⟨1, "A", 10, 1, 10, "red"⟩

/-! ## Helper lemmas -/

lemma mem_eligible {p : Prize} {ps : List Prize} (h : p ∈ eligible ps) :
    p ∈ ps ∧ 0 < p.remaining_quantity := by
  simpa [eligible] using List.mem_filter.mp h

lemma eligible_eq_nil {ps : List Prize}
    (h : ∀ p ∈ ps, p.remaining_quantity ≤ 0) : eligible ps = [] := by
  apply List.filter_eq_nil_iff.mpr
  intro p hp
  simpa using h p hp

lemma walkLoop_mem {w : Prize → ℚ} {r : ℚ} {ps : List Prize} {p : Prize}
    (h : walkLoop w r ps = some p) : p ∈ ps := by
  induction ps generalizing r with
  | nil => simp [walkLoop] at h
  | cons q qs ih =>
    simp only [walkLoop] at h
    by_cases hle : r - w q ≤ 0
    · rw [if_pos hle] at h
      obtain rfl : q = p := Option.some.inj h
      exact List.mem_cons_self _ _
    · rw [if_neg hle] at h
      exact List.mem_cons_of_mem q (ih h)

lemma getLast?_mem {ps : List Prize} {p : Prize} (h : ps.getLast? = some p) :
    p ∈ ps := by
  rcases List.mem_getLast?_eq_getLast (Option.mem_def.mpr h) with ⟨hne, he⟩
  exact he ▸ List.getLast_mem hne

lemma weightedRandom_index_mem {u : ℚ} {ps : List Prize} {p : Prize}
    (h : weightedRandom_index u ps = some p) : p ∈ ps := by
  rw [weightedRandom_index] at h
  cases hw : walkLoop Prize.probability (randomValue_index u) ps with
  | none =>
    rw [hw] at h
    exact getLast?_mem h
  | some q =>
    rw [hw] at h
    obtain rfl : q = p := Option.some.inj h
    exact walkLoop_mem hw

lemma weightedRandom_part_mem {u : ℚ} {ps : List Prize} {p : Prize}
    (h : weightedRandom_part u ps = some p) : p ∈ ps := by
  rw [weightedRandom_part] at h
  cases hw : walkLoop (fun p => (p.total_quantity : ℚ)) (randomValue_part u ps) ps with
  | none =>
    rw [hw] at h
    exact getLast?_mem h
  | some q =>
    rw [hw] at h
    obtain rfl : q = p := Option.some.inj h
    exact walkLoop_mem hw

lemma weightedRandom_index_isSome (u : ℚ) (p : Prize) (ps : List Prize) :
    (weightedRandom_index u (p :: ps)).isSome = true := by
  rw [weightedRandom_index]
  cases hw : walkLoop Prize.probability (randomValue_index u) (p :: ps) with
  | none => simp [List.getLast?_eq_getLast_of_ne_nil (List.cons_ne_nil p ps)]
  | some q => simp

lemma weightedRandom_part_isSome (u : ℚ) (p : Prize) (ps : List Prize) :
    (weightedRandom_part u (p :: ps)).isSome = true := by
  rw [weightedRandom_part]
  cases hw : walkLoop (fun p => (p.total_quantity : ℚ))
      (randomValue_part u (p :: ps)) (p :: ps) with
  | none => simp [List.getLast?_eq_getLast_of_ne_nil (List.cons_ne_nil p ps)]
  | some q => simp

lemma findOrCreateParticipant_prizes (name : String) (db : DB) :
    (findOrCreateParticipant name db).1.prizes = db.prizes := by
  rw [findOrCreateParticipant]
  split <;> rfl

lemma findOrCreateParticipant_records (name : String) (db : DB) :
    (findOrCreateParticipant name db).1.records = db.records := by
  rw [findOrCreateParticipant]
  split <;> rfl

lemma decrementIfPositive_nonneg {i : ℕ} {ps : List Prize}
    (h : ∀ p ∈ ps, 0 ≤ p.remaining_quantity) :
    ∀ q ∈ decrementIfPositive i ps, 0 ≤ q.remaining_quantity := by
  intro q hq
  rw [decrementIfPositive] at hq
  rcases List.mem_map.mp hq with ⟨p, hp, rfl⟩
  by_cases hc : p.id = i ∧ 0 < p.remaining_quantity
  · rw [if_pos hc]
    have h2 := hc.2
    show 0 ≤ p.remaining_quantity - 1
    omega
  · rw [if_neg hc]
    exact h p hp

lemma decrementIfPositive_noop {i : ℕ} {ps : List Prize}
    (h : ∀ p ∈ ps, p.id = i → p.remaining_quantity ≤ 0) :
    decrementIfPositive i ps = ps := by
  rw [decrementIfPositive]
  conv_rhs => rw [← List.map_id ps]
  apply List.map_congr_left
  intro p hp
  have hc : ¬ (p.id = i ∧ 0 < p.remaining_quantity) := by
    rintro ⟨hid, hpos⟩
    exact absurd hpos (not_lt.mpr (h p hp hid))
  rw [if_neg hc]
  rfl

lemma decrementIfPositive_unique {pz : Prize} {ps : List Prize}
    (hmem : pz ∈ ps) (hpos : 0 < pz.remaining_quantity)
    (hnd : (ps.map Prize.id).Nodup) :
    ({ pz with remaining_quantity := pz.remaining_quantity - 1 } ∈
        decrementIfPositive pz.id ps)
    ∧ ∀ q ∈ decrementIfPositive pz.id ps, q.id = pz.id →
        q = { pz with remaining_quantity := pz.remaining_quantity - 1 } := by
  constructor
  · rw [decrementIfPositive]
    have : (if pz.id = pz.id ∧ 0 < pz.remaining_quantity then
        { pz with remaining_quantity := pz.remaining_quantity - 1 } else pz) =
        { pz with remaining_quantity := pz.remaining_quantity - 1 } := by
      simp [hpos]
    exact this ▸ List.mem_map_of_mem _ hmem
  · intro q hq hqid
    rw [decrementIfPositive] at hq
    rcases List.mem_map.mp hq with ⟨p, hp, rfl⟩
    by_cases hc : p.id = pz.id ∧ 0 < p.remaining_quantity
    · obtain rfl : p = pz := List.inj_on_of_nodup_map hnd hp hmem hc.1
      rw [if_pos hc]
    · rw [if_neg hc] at hqid ⊢
      obtain rfl : p = pz := List.inj_on_of_nodup_map hnd hp hmem hqid
      exact absurd ⟨rfl, hpos⟩ hc

lemma draw_index_cases (db : DB) (u : ℚ) (name : String) :
    ((draw_index db u (some name)).2.isOk = false ∧ (draw_index db u (some name)).1 = db)
    ∨ ∃ pz, weightedRandom_index u (eligible db.prizes) = some pz ∧
        draw_index db u (some name) =
          commitPhase_index (findOrCreateParticipant name db).1
            (findOrCreateParticipant name db).2 name pz := by
  simp only [draw_index, findOrCreateParticipant_prizes]
  split
  · exact Or.inl ⟨rfl, rfl⟩
  · split
    · exact Or.inl ⟨rfl, rfl⟩
    · rename_i sel heq
      exact Or.inr ⟨sel, heq, rfl⟩

lemma draw_part_cases (db : DB) (u : ℚ) :
    ((draw_part db u).2.isOk = false ∧ (draw_part db u).1 = db)
    ∨ ∃ pz, weightedRandom_part u (eligible db.prizes) = some pz ∧
        draw_part db u = commitPhase_part db pz := by
  simp only [draw_part]
  split
  · exact Or.inl ⟨rfl, rfl⟩
  · split
    · exact Or.inl ⟨rfl, rfl⟩
    · rename_i sel heq
      exact Or.inr ⟨sel, heq, rfl⟩

lemma draw_index_noPrizes {db : DB} (u : ℚ) (name : String)
    (h : ∀ p ∈ db.prizes, p.remaining_quantity ≤ 0) :
    draw_index db u (some name) = (db, .errNoPrizes) := by
  simp only [draw_index, findOrCreateParticipant_prizes, eligible_eq_nil h]
  rfl

lemma draw_part_noPrizes {db : DB} (u : ℚ)
    (h : ∀ p ∈ db.prizes, p.remaining_quantity ≤ 0) :
    draw_part db u = (db, .errNoPrizes) := by
  simp only [draw_part, eligible_eq_nil h]
  rfl

lemma commitPhase_index_prizes (db : DB) (pid : ℕ) (name : String) (pz : Prize) :
    (commitPhase_index db pid name pz).1.prizes =
      decrementIfPositive pz.id db.prizes := rfl

lemma commitPhase_part_prizes (db : DB) (pz : Prize) :
    (commitPhase_part db pz).1.prizes = decrementIfPositive pz.id db.prizes := rfl

lemma commitPhase_index_result (db : DB) (pid : ℕ) (name : String) (pz : Prize) :
    (commitPhase_index db pid name pz).2 =
      DrawResult.ok (some ⟨pid, name⟩) pz := rfl

lemma commitPhase_part_result (db : DB) (pz : Prize) :
    (commitPhase_part db pz).2 = DrawResult.ok none pz := rfl

/-! ## Claim theorems -/

/-- C1 (counterexample): the claim says the random value used for the walk
lies in `[0, W)` with `W` the weight sum of the eligible prizes; in the
`src/index.ts` variant the random value is `u * 100` regardless of the
eligible prizes.  With prize 2 exhausted the eligible set is `[prizeA]`
with weight sum `10`, yet at `u = 1/2` the walk starts from `50 ∉ [0, 10)`. -/
theorem C1_counterexample :
    (0 : ℚ) ≤ 1/2 ∧ (1/2 : ℚ) < 1
    ∧ eligible dbPartialStock.prizes = [prizeA]
    ∧ probabilitySum (eligible dbPartialStock.prizes) = 10
    ∧ randomValue_index (1/2) = 50
    ∧ ¬ randomValue_index (1/2) < probabilitySum (eligible dbPartialStock.prizes) := by
  norm_num [dbPartialStock, prizeA, eligible, probabilitySum, randomValue_index]

/-- C1 (amended): only the `part_000` variant draws its random value from
`[0, W)` over the walked prizes (when `W > 0`); the `index.ts` variant draws
from the fixed interval `[0, 100)` independent of the eligible weights. -/
theorem C1_amended_thm (u : ℚ) (prizes : List Prize)
    (h0 : 0 ≤ u) (h1 : u < 1) (hW : 0 < totalWeight prizes) :
    (0 ≤ randomValue_part u prizes ∧ randomValue_part u prizes < totalWeight prizes)
    ∧ (0 ≤ randomValue_index u ∧ randomValue_index u < 100) := by
  rw [randomValue_part, randomValue_index]
  refine ⟨⟨mul_nonneg h0 hW.le, ?_⟩, mul_nonneg h0 (by norm_num), ?_⟩
  · calc u * totalWeight prizes < 1 * totalWeight prizes :=
        mul_lt_mul_of_pos_right h1 hW
      _ = totalWeight prizes := one_mul _
  · calc u * 100 < 1 * 100 := mul_lt_mul_of_pos_right h1 (by norm_num)
      _ = 100 := one_mul _

theorem C1_witness :
    ((0 : ℚ) ≤ 1/2 ∧ (1/2 : ℚ) < 1 ∧ 0 < totalWeight [prizeA])
    ∧ ((0 ≤ randomValue_part (1/2) [prizeA]
        ∧ randomValue_part (1/2) [prizeA] < totalWeight [prizeA])
      ∧ (0 ≤ randomValue_index (1/2) ∧ randomValue_index (1/2) < 100)) :=
  ⟨⟨by norm_num, by norm_num, by norm_num [totalWeight, prizeA]⟩,
   C1_amended_thm (1/2) [prizeA] (by norm_num) (by norm_num)
     (by norm_num [totalWeight, prizeA])⟩

/-- C7: on the spec's worked example — two prizes with weights 10 and 90 in
listed order and random value 5 — the walk computes `5 - 10 = -5 ≤ 0` at the
first prize and selects it (id 1), in both variants (`u = 1/20` makes both
variants start the walk at 5, since the part variant's total weight is 100). -/
theorem C7_thm :
    walkLoop Prize.probability 5 [prizeA, prizeB] = some prizeA
    ∧ (5 : ℚ) - prizeA.probability = -5
    ∧ weightedRandom_index (1/20) [prizeA, prizeB] = some prizeA
    ∧ weightedRandom_part (1/20) [prizeA, prizeB] = some prizeA
    ∧ prizeA.id = 1 := by
  norm_num [walkLoop, prizeA, prizeB, weightedRandom_index, weightedRandom_part,
    randomValue_index, randomValue_part, totalWeight]

/-- C8 (counterexample): the claim says every draw fetches the eligible
prizes under an exclusive row lock; the `src/index.ts` draw endpoint issues
its eligible-prize query with no `FOR UPDATE` clause. -/
theorem C8_counterexample : selectsForUpdate eligiblePrizesQuery_index = false := by
  decide

/-- C8 (amended): only the `part_000` variant fetches the eligible prizes
`FOR UPDATE`; the `index.ts` variant issues a plain `SELECT` without a row
lock. -/
theorem C8_amended_thm :
    selectsForUpdate eligiblePrizesQuery_part = true
    ∧ selectsForUpdate eligiblePrizesQuery_index = false := by
  decide

/-- C2 (counterexample): the claim says every successful draw call creates
exactly one DrawRecord; a successful draw through the `part_000` endpoint
creates none — that endpoint never writes to a records table. -/
theorem C2_counterexample :
    (draw_part dbAB (1/20)).2 = DrawResult.ok none prizeA
    ∧ (draw_part dbAB (1/20)).1.records = [] := by
  norm_num [draw_part, dbAB, prizeA, prizeB, eligible, weightedRandom_part,
    randomValue_part, totalWeight, walkLoop, commitPhase_part, decrementIfPositive]

/-- C2 (amended): the `index.ts` endpoint appends exactly one record per
successful call and none per failed call; the `part_000` endpoint never
creates a record, successful or not. -/
theorem C2_amended_thm (db : DB) (u : ℚ) (name : String) :
    (draw_index db u (some name)).1.records.length =
      db.records.length + (if (draw_index db u (some name)).2.isOk then 1 else 0)
    ∧ (draw_index db u none).1.records = db.records
    ∧ (draw_part db u).1.records = db.records := by
  refine ⟨?_, rfl, ?_⟩
  · rcases draw_index_cases db u name with ⟨hok, hst⟩ | ⟨pz, hw, hd⟩
    · rw [hok, hst]
      simp
    · rw [hd]
      simp [commitPhase_index, DrawResult.isOk, findOrCreateParticipant_records]
  · rcases draw_part_cases db u with ⟨hok, hst⟩ | ⟨pz, hw, hd⟩
    · rw [hst]
    · rw [hd]
      rfl

/-- C3: when no prize has `remaining_quantity > 0`, both endpoints respond
with the 400 no-prizes error and the committed state is exactly the initial
state — no record, no decrement, and no participant row survives (the
`index.ts` participant insert is rolled back). -/
theorem C3_thm (db : DB) (u : ℚ) (name : String)
    (h : ∀ p ∈ db.prizes, p.remaining_quantity ≤ 0) :
    draw_index db u (some name) = (db, DrawResult.errNoPrizes)
    ∧ draw_part db u = (db, DrawResult.errNoPrizes) :=
  ⟨draw_index_noPrizes u name h, draw_part_noPrizes u h⟩

theorem C3_witness :
    (∀ p ∈ dbExhausted.prizes, p.remaining_quantity ≤ 0)
    ∧ draw_index dbExhausted (1/2) (some "x") = (dbExhausted, DrawResult.errNoPrizes)
    ∧ draw_part dbExhausted (1/2) = (dbExhausted, DrawResult.errNoPrizes) := by
  have h : ∀ p ∈ dbExhausted.prizes, p.remaining_quantity ≤ 0 := by decide
  exact ⟨h, (C3_thm dbExhausted (1/2) "x" h).1, (C3_thm dbExhausted (1/2) "x" h).2⟩

/-- C5 (counterexample): with the selected prize read at
`remaining_quantity = 1` but already exhausted in the table at write time
(`dbRace`), the conditional decrement is a no-op — yet the `index.ts`
commit phase still commits its record insert and reports HTTP 200 success
instead of aborting. -/
theorem C5_counterexample :
    (commitPhase_index dbRace 1 "x" prizeStale).2 =
      DrawResult.ok (some ⟨1, "x"⟩) prizeStale
    ∧ (commitPhase_index dbRace 1 "x" prizeStale).1.prizes = dbRace.prizes
    ∧ (commitPhase_index dbRace 1 "x" prizeStale).1.records = [⟨1, 1⟩] := by
  norm_num [commitPhase_index, dbRace, prizeStale, decrementIfPositive]

/-- C5 (amended): when the decrement precondition no longer holds at write
time, neither variant aborts: the decrement is a no-op (the prize table is
left unchanged), but the handler still commits — including, in the
`index.ts` variant, the already-inserted record — and reports success. -/
theorem C5_amended_thm (db : DB) (pid : ℕ) (name : String) (pz : Prize)
    (hnoop : ∀ p ∈ db.prizes, p.id = pz.id → p.remaining_quantity ≤ 0) :
    ((commitPhase_index db pid name pz).2.isOk = true
      ∧ (commitPhase_index db pid name pz).1.prizes = db.prizes
      ∧ (commitPhase_index db pid name pz).1.records =
          db.records ++ [⟨pid, pz.id⟩])
    ∧ ((commitPhase_part db pz).2.isOk = true
      ∧ (commitPhase_part db pz).1.prizes = db.prizes) := by
  refine ⟨⟨rfl, ?_, rfl⟩, rfl, ?_⟩
  · show decrementIfPositive pz.id db.prizes = db.prizes
    exact decrementIfPositive_noop hnoop
  · show decrementIfPositive pz.id db.prizes = db.prizes
    exact decrementIfPositive_noop hnoop

theorem C5_witness :
    (∀ p ∈ dbRace.prizes, p.id = prizeStale.id → p.remaining_quantity ≤ 0)
    ∧ (((commitPhase_index dbRace 1 "x" prizeStale).2.isOk = true
      ∧ (commitPhase_index dbRace 1 "x" prizeStale).1.prizes = dbRace.prizes
      ∧ (commitPhase_index dbRace 1 "x" prizeStale).1.records =
          dbRace.records ++ [⟨1, prizeStale.id⟩])
    ∧ ((commitPhase_part dbRace prizeStale).2.isOk = true
      ∧ (commitPhase_part dbRace prizeStale).1.prizes = dbRace.prizes)) :=
  ⟨by decide, C5_amended_thm dbRace 1 "x" prizeStale (by decide)⟩

/-- C4: the inventory write subtracts exactly 1 from rows matching the
selected id, conditioned on `remaining_quantity > 0` holding at write time
(the `Forall₂` clause characterises the write row by row), and consequently
both draw endpoints preserve `0 ≤ remaining_quantity` for every prize. -/
theorem C4_thm (db : DB) (u v : ℚ) (name? : Option String) (i : ℕ) (ps : List Prize)
    (h : ∀ p ∈ db.prizes, 0 ≤ p.remaining_quantity) :
    (∀ q ∈ (draw_index db u name?).1.prizes, 0 ≤ q.remaining_quantity)
    ∧ (∀ q ∈ (draw_part db v).1.prizes, 0 ≤ q.remaining_quantity)
    ∧ List.Forall₂ (fun p q =>
        (p.id = i ∧ 0 < p.remaining_quantity ∧
          q = { p with remaining_quantity := p.remaining_quantity - 1 })
        ∨ (¬ (p.id = i ∧ 0 < p.remaining_quantity) ∧ q = p))
        ps (decrementIfPositive i ps) := by
  refine ⟨?_, ?_, ?_⟩
  · match name? with
    | none => exact h
    | some name =>
      rcases draw_index_cases db u name with ⟨_, hst⟩ | ⟨pz, hw, hd⟩
      · rw [hst]
        exact h
      · rw [hd, commitPhase_index_prizes, findOrCreateParticipant_prizes]
        exact decrementIfPositive_nonneg h
  · rcases draw_part_cases db v with ⟨_, hst⟩ | ⟨pz, hw, hd⟩
    · rw [hst]
      exact h
    · rw [hd, commitPhase_part_prizes]
      exact decrementIfPositive_nonneg h
  · induction ps with
    | nil => exact List.Forall₂.nil
    | cons p ps ih =>
      refine List.Forall₂.cons ?_ ih
      by_cases hc : p.id = i ∧ 0 < p.remaining_quantity
      · exact Or.inl ⟨hc.1, hc.2, if_pos hc⟩
      · exact Or.inr ⟨hc, if_neg hc⟩

theorem C4_witness :
    (∀ p ∈ dbAB.prizes, 0 ≤ p.remaining_quantity)
    ∧ ((∀ q ∈ (draw_index dbAB (1/20) (some "x")).1.prizes, 0 ≤ q.remaining_quantity)
      ∧ (∀ q ∈ (draw_part dbAB (1/20)).1.prizes, 0 ≤ q.remaining_quantity)
      ∧ List.Forall₂ (fun p q =>
          (p.id = 1 ∧ 0 < p.remaining_quantity ∧
            q = { p with remaining_quantity := p.remaining_quantity - 1 })
          ∨ (¬ (p.id = 1 ∧ 0 < p.remaining_quantity) ∧ q = p))
          [prizeA] (decrementIfPositive 1 [prizeA])) :=
  ⟨by decide, C4_thm dbAB (1/20) (1/20) (some "x") 1 [prizeA] (by decide)⟩

/-- C6: for every non-empty prize list, both `weightedRandom` variants
return an element of the list, and if the subtraction walk exhausts the
list without triggering, the returned element is the last prize in
iteration order (a normal selection, not an error). -/
theorem C6_thm (u : ℚ) (prizes : List Prize) (h : prizes ≠ []) :
    (∃ p, weightedRandom_index u prizes = some p ∧ p ∈ prizes)
    ∧ (∃ p, weightedRandom_part u prizes = some p ∧ p ∈ prizes)
    ∧ (walkLoop Prize.probability (randomValue_index u) prizes = none →
        weightedRandom_index u prizes = some (prizes.getLast h))
    ∧ (walkLoop (fun p => (p.total_quantity : ℚ)) (randomValue_part u prizes) prizes = none →
        weightedRandom_part u prizes = some (prizes.getLast h)) := by
  refine ⟨?_, ?_, ?_, ?_⟩
  · obtain ⟨q, qs, rfl⟩ := List.exists_cons_of_ne_nil h
    obtain ⟨p, hp⟩ := Option.isSome_iff_exists.mp (weightedRandom_index_isSome u q qs)
    exact ⟨p, hp, weightedRandom_index_mem hp⟩
  · obtain ⟨q, qs, rfl⟩ := List.exists_cons_of_ne_nil h
    obtain ⟨p, hp⟩ := Option.isSome_iff_exists.mp (weightedRandom_part_isSome u q qs)
    exact ⟨p, hp, weightedRandom_part_mem hp⟩
  · intro hw
    rw [weightedRandom_index, hw]
    exact List.getLast?_eq_getLast_of_ne_nil h
  · intro hw
    rw [weightedRandom_part, hw]
    exact List.getLast?_eq_getLast_of_ne_nil h

theorem C6_witness :
    (([prizeA, prizeB] : List Prize) ≠ [])
    ∧ ((∃ p, weightedRandom_index (1/20) [prizeA, prizeB] = some p ∧ p ∈ [prizeA, prizeB])
      ∧ (∃ p, weightedRandom_part (1/20) [prizeA, prizeB] = some p ∧ p ∈ [prizeA, prizeB])
      ∧ (walkLoop Prize.probability (randomValue_index (1/20)) [prizeA, prizeB] = none →
          weightedRandom_index (1/20) [prizeA, prizeB] =
            some ([prizeA, prizeB].getLast (List.cons_ne_nil prizeA [prizeB])))
      ∧ (walkLoop (fun p => (p.total_quantity : ℚ))
            (randomValue_part (1/20) [prizeA, prizeB]) [prizeA, prizeB] = none →
          weightedRandom_part (1/20) [prizeA, prizeB] =
            some ([prizeA, prizeB].getLast (List.cons_ne_nil prizeA [prizeB])))) :=
  ⟨List.cons_ne_nil prizeA [prizeB],
   C6_thm (1/20) [prizeA, prizeB] (List.cons_ne_nil prizeA [prizeB])⟩

/-- C9: on every successful draw (in either variant, over a table with
unique prize ids) the prize in the 200 response is the row as read at
selection time, while the persisted row with that id ends the call with
`remaining_quantity` exactly one less than the reported value. -/
theorem C9_thm (db : DB) (u v : ℚ) (name : String)
    (pt pt' : Option Participant) (pz pz' : Prize)
    (hnd : (db.prizes.map Prize.id).Nodup)
    (hok : (draw_index db u (some name)).2 = DrawResult.ok pt pz)
    (hok' : (draw_part db v).2 = DrawResult.ok pt' pz') :
    (0 < pz.remaining_quantity
      ∧ ({ pz with remaining_quantity := pz.remaining_quantity - 1 } ∈
          (draw_index db u (some name)).1.prizes)
      ∧ (∀ q ∈ (draw_index db u (some name)).1.prizes, q.id = pz.id →
          q = { pz with remaining_quantity := pz.remaining_quantity - 1 }))
    ∧ (0 < pz'.remaining_quantity
      ∧ ({ pz' with remaining_quantity := pz'.remaining_quantity - 1 } ∈
          (draw_part db v).1.prizes)
      ∧ (∀ q ∈ (draw_part db v).1.prizes, q.id = pz'.id →
          q = { pz' with remaining_quantity := pz'.remaining_quantity - 1 })) := by
  constructor
  · rcases draw_index_cases db u name with ⟨hko, _⟩ | ⟨sel, hw, hd⟩
    · rw [hok] at hko
      simp [DrawResult.isOk] at hko
    · rw [hd, commitPhase_index_result] at hok
      injection hok with h1 h2
      subst h2
      obtain ⟨hmem, hpos⟩ := mem_eligible (weightedRandom_index_mem hw)
      have hu := decrementIfPositive_unique hmem hpos hnd
      rw [hd, commitPhase_index_prizes, findOrCreateParticipant_prizes]
      exact ⟨hpos, hu.1, hu.2⟩
  · rcases draw_part_cases db v with ⟨hko, _⟩ | ⟨sel, hw, hd⟩
    · rw [hok'] at hko
      simp [DrawResult.isOk] at hko
    · rw [hd, commitPhase_part_result] at hok'
      injection hok' with h1 h2
      subst h2
      obtain ⟨hmem, hpos⟩ := mem_eligible (weightedRandom_part_mem hw)
      have hu := decrementIfPositive_unique hmem hpos hnd
      rw [hd, commitPhase_part_prizes]
      exact ⟨hpos, hu.1, hu.2⟩

theorem C9_witness :
    ((dbAB.prizes.map Prize.id).Nodup
      ∧ (draw_index dbAB (1/20) (some "x")).2 = DrawResult.ok (some ⟨1, "x"⟩) prizeA
      ∧ (draw_part dbAB (1/20)).2 = DrawResult.ok none prizeA)
    ∧ ((0 < prizeA.remaining_quantity
      ∧ ({ prizeA with remaining_quantity := prizeA.remaining_quantity - 1 } ∈
          (draw_index dbAB (1/20) (some "x")).1.prizes)
      ∧ (∀ q ∈ (draw_index dbAB (1/20) (some "x")).1.prizes, q.id = prizeA.id →
          q = { prizeA with remaining_quantity := prizeA.remaining_quantity - 1 }))
    ∧ (0 < prizeA.remaining_quantity
      ∧ ({ prizeA with remaining_quantity := prizeA.remaining_quantity - 1 } ∈
          (draw_part dbAB (1/20)).1.prizes)
      ∧ (∀ q ∈ (draw_part dbAB (1/20)).1.prizes, q.id = prizeA.id →
          q = { prizeA with remaining_quantity := prizeA.remaining_quantity - 1 }))) :=
  ⟨⟨by decide,
    by norm_num [draw_index, dbAB, prizeA, prizeB, eligible, weightedRandom_index,
      randomValue_index, walkLoop, commitPhase_index, decrementIfPositive,
      findOrCreateParticipant],
    by norm_num [draw_part, dbAB, prizeA, prizeB, eligible, weightedRandom_part,
      randomValue_part, totalWeight, walkLoop, commitPhase_part, decrementIfPositive]⟩,
   C9_thm dbAB (1/20) (1/20) "x" (some ⟨1, "x"⟩) none prizeA prizeA
     (by decide)
     (by norm_num [draw_index, dbAB, prizeA, prizeB, eligible, weightedRandom_index,
       randomValue_index, walkLoop, commitPhase_index, decrementIfPositive,
       findOrCreateParticipant])
     (by norm_num [draw_part, dbAB, prizeA, prizeB, eligible, weightedRandom_part,
       randomValue_part, totalWeight, walkLoop, commitPhase_part, decrementIfPositive])⟩

/-- C10: neither endpoint can hit the out-of-bounds fallback: the response
is never the `undefined`-selection outcome (the handlers call
`weightedRandom` only behind the non-emptiness check), and on every
non-empty list `weightedRandom` produces a value and the
`prizes[prizes.length - 1]` fallback access is in bounds. -/
theorem C10_thm (db : DB) (u v w : ℚ) (name? : Option String)
    (p : Prize) (ps : List Prize) :
    (draw_index db u name?).2 ≠ DrawResult.errUndefined
    ∧ (draw_part db v).2 ≠ DrawResult.errUndefined
    ∧ (weightedRandom_index w (p :: ps)).isSome = true
    ∧ (weightedRandom_part w (p :: ps)).isSome = true
    ∧ (p :: ps).getLast? = some ((p :: ps).getLast (List.cons_ne_nil p ps)) := by
  refine ⟨?_, ?_, weightedRandom_index_isSome w p ps, weightedRandom_part_isSome w p ps,
    List.getLast?_eq_getLast_of_ne_nil _⟩
  · match name? with
    | none => simp [draw_index]
    | some name =>
      simp only [draw_index, findOrCreateParticipant_prizes]
      split
      · simp
      · rename_i hlen
        split
        · rename_i heq
          exfalso
          have hne : eligible db.prizes ≠ [] := fun hnil => hlen (by rw [hnil]; rfl)
          obtain ⟨q, qs, hqs⟩ := List.exists_cons_of_ne_nil hne
          rw [hqs] at heq
          have hs := weightedRandom_index_isSome u q qs
          rw [heq] at hs
          simp at hs
        · rename_i sel heq
          rw [commitPhase_index_result]
          simp
  · simp only [draw_part]
    split
    · simp
    · rename_i hlen
      split
      · rename_i heq
        exfalso
        have hne : eligible db.prizes ≠ [] := fun hnil => hlen (by rw [hnil]; rfl)
        obtain ⟨q, qs, hqs⟩ := List.exists_cons_of_ne_nil hne
        rw [hqs] at heq
        have hs := weightedRandom_part_isSome v q qs
        rw [heq] at hs
        simp at hs
      · rename_i sel heq
        rw [commitPhase_part_result]
        simp
